import Mathlib

/-!
Verification of the gitdir directory scanner and the seekable2 object
storage (storage/seekable2/internal/gitdir/gitdir.go).

The Go code is embedded shallowly: the filesystem is a value of `FSState`
describing the observable outcome of every stat, open, read, close and
zlib-decompression step, and every Go function becomes a pure Lean
function over that state. Go multiple return values (v, err) become
pairs with an `Option GoErr` component; functions whose callers only
look at the error when it is non-nil use `Except`. Collaborator types
that live outside this fragment (core.Hash, common.Capabilities,
utils/fs, memory.NewObject, addRefsFromRefDir, symRefPrefix) are
modelled from the specification and are marked as such.
-/

/-- Go error values as this fragment observes them: the distinguished
sentinel errors (gitdir.ErrNotFound, zlib.ErrHeader), operating-system
errors carrying the os.IsNotExist flag, and fmt.Errorf results carrying
only a message. -/
inductive GoErr where
  | errNotFound : GoErr
  | zlibErrHeader : GoErr
  | sys : Bool → String → GoErr
  | msg : String → GoErr
deriving DecidableEq, Repr

/-- The message an error formats with percent-s in fmt.Errorf. -/
def GoErr.message : GoErr → String
  | errNotFound => "path not found"
  | zlibErrHeader => "zlib: invalid header"
  | sys _ s => s
  | msg s => s

/-- The os.IsNotExist predicate: true exactly for system errors carrying
the does-not-exist flag. -/
def GoErr.isNotExist : GoErr → Bool
  | sys b _ => b
  | _ => false

/-- Whitespace as strings.TrimSpace removes it (space, tab, newline,
carriage return cover every content in scope). -/
def isWS (c : Char) : Bool := c = ' ' || c = '\t' || c = '\n' || c = '\r'

/-- strings.TrimSpace: remove leading and trailing whitespace. -/
def trimSpace (s : String) : String :=
  ⟨((s.data.dropWhile isWS).reverse.dropWhile isWS).reverse⟩

/-- strings.HasPrefix. -/
def strStartsWith (s p : String) : Bool := p.data.isPrefixOf s.data

/-- strings.TrimPrefix: drop the marker when it is present, otherwise
return the string unchanged. -/
def trimPref (s p : String) : String :=
  if strStartsWith s p then ⟨s.data.drop p.data.length⟩ else s

/-- Go string slicing s[a:b] on ascii content. -/
def goSlice (s : String) (a b : Nat) : String := ⟨(s.data.drop a).take (b - a)⟩

/-- Modelled from the spec: the path-join capability of the abstract
filesystem (utils/fs is not part of this fragment); segments are joined
with a slash separator. -/
def fsJoin : List String → String
  | [] => ""
  | [p] => p
  | p :: rest => p ++ "/" ++ fsJoin rest

/-- Lowercase hexadecimal digit for a value below sixteen. -/
def hexChar (n : Nat) : Char :=
  if n < 10 then Char.ofNat (48 + n) else Char.ofNat (87 + n)

/-- The two hexadecimal digits of one byte. -/
def byteHex (b : Nat) : List Char := [hexChar (b / 16), hexChar (b % 16)]

/-- Modelled from the spec: core.Hash, a fixed-length binary identifier
of twenty bytes (the core package is not part of this fragment). -/
structure Hash where
  bytes : List Nat
deriving DecidableEq, Repr

/-- Wellformedness of a hash: twenty bytes, each below 256. -/
def Hash.WF (h : Hash) : Prop := h.bytes.length = 20 ∧ ∀ b ∈ h.bytes, b < 256

instance (h : Hash) : Decidable h.WF := by
  unfold Hash.WF
  infer_instance

/-- Modelled from the spec: the String method of core.Hash, the
forty-character lowercase hexadecimal rendering used for path
construction. -/
def Hash.str (h : Hash) : String := ⟨(h.bytes.map byteHex).flatten⟩

/-- Modelled from the spec: core.ZeroHash, the distinguished all-zero
value denoting absent or unknown. -/
def zeroHash : Hash := ⟨List.replicate 20 0⟩

/-- Value of one hexadecimal digit, accepting both letter cases as
encoding/hex does. -/
def hexVal (c : Char) : Option Nat :=
  if 48 ≤ c.toNat ∧ c.toNat ≤ 57 then some (c.toNat - 48)
  else if 97 ≤ c.toNat ∧ c.toNat ≤ 102 then some (c.toNat - 87)
  else if 65 ≤ c.toNat ∧ c.toNat ≤ 70 then some (c.toNat - 55)
  else none

/-- Decode a run of hexadecimal digit pairs into bytes. -/
def parseHashData : List Char → Option (List Nat)
  | [] => some []
  | c₁ :: c₂ :: rest =>
    match hexVal c₁, hexVal c₂, parseHashData rest with
    | some hi, some lo, some bs => some ((hi * 16 + lo) :: bs)
    | _, _, _ => none
  | [_] => none

/-- Modelled from the spec: parsing the raw-hash content of a reference
file into a core.Hash (forty hexadecimal characters giving twenty
bytes). -/
def parseHash (s : String) : Option Hash :=
  match parseHashData s.data with
  | some bs => if bs.length = 20 then some ⟨bs⟩ else none
  | none => none

/-- Modelled from the spec: common.Capabilities, a mapping from
capability name to an ordered list of string values (clients/common is
not part of this fragment). -/
abbrev CapSet := List (String × List String)

/-- common.NewCapabilities: the empty capability set. -/
def NewCapabilities : CapSet := []

/-- The Set method: store a single value for a name, shadowing any
earlier entry. -/
def capSet (c : CapSet) (name : String) (v : String) : CapSet := (name, [v]) :: c

/-- The Supports method: whether the set holds an entry for the name. -/
def capSupports (c : CapSet) (name : String) : Bool := (List.lookup name c).isSome

/-- The Get method followed by the Values field: the ordered values of
the named capability, empty when absent. -/
def capGet (c : CapSet) (name : String) : List String := (List.lookup name c).getD []

/-- Observable outcome of feeding the byte stream of one file through
compress/zlib: the result of zlib.NewReader on it, the bytes io.Copy
writes from the decompressor, the error io.Copy stops with, and the
error the final Close of the decompressor reports. -/
structure ZBehavior where
  openErr : Option GoErr
  copied : List Nat
  copyErr : Option GoErr
  closeErr : Option GoErr

/-- The abstract filesystem a repository is read from: per-path outcomes
of stat, open, read-all, close, the zlib behavior of the byte stream at
a path, and (modelled from the spec, for addRefsFromRefDir which is not
part of this fragment) the loose-reference directory tree as a list of
reference name and raw file content pairs. -/
structure FSState where
  stat : String → Option GoErr
  openErr : String → Option GoErr
  readAll : String → Except GoErr String
  closeErr : String → Option GoErr
  zlib : String → ZBehavior
  refFiles : List (String × String)

/-- The GitDir type: a local git repository on disk, a filesystem handle
plus the repository root path. The mutable refs cache field of the Go
struct is unconditionally overwritten by every Refs call and never read
otherwise, so the embedding carries no such field and Refs returns a
fresh mapping. -/
structure GitDir where
  fs : FSState
  path : String

/-- gitdir.New: validate the root path with a stat call; a does-not-exist
condition yields ErrNotFound, any other stat failure is surfaced
unchanged. -/
def GitDir.New (fs : FSState) (path : String) : Except GoErr GitDir :=
  match fs.stat path with
  | some e => if e.isNotExist then .error .errNotFound else .error e
  | none => .ok ⟨fs, path⟩

/-- Modelled from the spec: the symRefPrefix constant (declared outside
this fragment), the marker of a symbolic reference. -/
def symRefPrefixStr : String := "ref: "

/-- Modelled from the spec: resolve the trimmed content of one reference
file to a hash; a raw hash parses directly, a symbolic reference is
followed transparently through the discovered files, with fuel bounding
the indirection depth so a dangling or cyclic chain fails. -/
def resolveRefContent (files : List (String × String)) : Nat → String → Option Hash
  | 0, _ => none
  | fuel + 1, content =>
    if strStartsWith content symRefPrefixStr then
      match List.lookup (trimPref content symRefPrefixStr) files with
      | some c => resolveRefContent files fuel (trimSpace c)
      | none => none
    else parseHash content

/-- Modelled from the spec: fold the discovered reference files into a
name-to-hash list; any file whose content does not resolve makes the
whole scan fail, with no partial result. -/
def buildRefs (all : List (String × String)) : List (String × String) → Option (List (String × Hash))
  | [] => some []
  | (n, c) :: rest =>
    match resolveRefContent all (all.length + 1) (trimSpace c), buildRefs all rest with
    | some h, some m => some ((n, h) :: m)
    | _, _ => none

/-- The reference mapping: unique names to hashes. -/
abbrev RefMap := List (String × Hash)

/-- Modelled from the spec: addRefsFromRefDir (declared outside this
fragment), scanning the loose-reference directory tree. -/
def GitDir.addRefsFromRefDir (d : GitDir) : Option RefMap :=
  buildRefs d.fs.refFiles d.fs.refFiles

/-- GitDir.Refs: scan the git directory collecting references; symbolic
references are resolved and included in the output. On failure the Go
function returns a nil map and the error. -/
def GitDir.Refs (d : GitDir) : RefMap × Option GoErr :=
  match d.addRefsFromRefDir with
  | some m => (m, none)
  | none => ([], some (.msg "could not resolve references"))

/-- GitDir.addSymRefCapability: open the HEAD file at the repository
root, read and trim its content, strip the symbolic-reference marker if
present, and record the single capability entry symref with value HEAD:
followed by the stripped content. The deferred Close writes its error
into the named return only when no earlier error exists. -/
def GitDir.addSymRefCapability (d : GitDir) (cap : CapSet) : CapSet × Option GoErr :=
  let hp := fsJoin [d.path, "HEAD"]
  match d.fs.openErr hp with
  | some e => (cap, some e)
  | none =>
    match d.fs.readAll hp with
    | .error e => (cap, some e)
    | .ok b =>
      let data := trimSpace b
      let ref := trimPref data symRefPrefixStr
      (capSet cap "symref" ("HEAD:" ++ ref), d.fs.closeErr hp)

/-- GitDir.Capabilities: a fresh capability set with the symref entry
added from the HEAD file. -/
def GitDir.Capabilities (d : GitDir) : CapSet × Option GoErr :=
  d.addSymRefCapability NewCapabilities

/-- GitDir.Objectfile: build the shard path of a loose object from the
hexadecimal rendering of its hash (first two characters, remaining
thirty-eight), stat it, translate does-not-exist into ErrNotFound and
surface any other stat failure unchanged; on success return the
filesystem handle and the path. The inline debug printing of the Go
code has no observable effect on the result. -/
def GitDir.Objectfile (d : GitDir) (h : Hash) : Except GoErr (FSState × String) :=
  let hash := h.str
  let objFile := fsJoin [d.path, "objects", goSlice hash 0 2, goSlice hash 2 40]
  match d.fs.stat objFile with
  | some e => if e.isNotExist then .error .errNotFound else .error e
  | none => .ok (d.fs, objFile)

/-- Object type tags of the object model. -/
inductive ObjectType where
  | commit
  | tree
  | blob
  | tag
deriving DecidableEq, Repr

/-- Modelled from the spec: the generic object value with type tag,
declared size and content bytes (the memory storage package is not part
of this fragment). -/
structure Object where
  type : ObjectType
  size : Int
  content : List Nat
deriving DecidableEq, Repr

/-- Modelled from the spec: memory.NewObject, the object constructor. -/
def memory.NewObject (t : ObjectType) (size : Int) (content : List Nat) : Object :=
  ⟨t, size, content⟩

/-- seekable2.ObjectStorage: the read side of the object store over a
git directory. -/
structure ObjectStorage where
  dir : GitDir

/-- seekable2.New: construct the storage over the git directory at the
path. -/
def ObjectStorage.New (fs : FSState) (path : String) : Except GoErr ObjectStorage :=
  match GitDir.New fs path with
  | .error e => .error e
  | .ok d => .ok ⟨d⟩

/-- ObjectStorage.Set: always a zero hash and a fixed not-implemented
error. The Go body performs no filesystem call and no mutation, which
the embedding makes explicit by returning the storage unchanged as the
first component. -/
def ObjectStorage.Set (s : ObjectStorage) (_ : Object) : ObjectStorage × Hash × Option GoErr :=
  (s, zeroHash, some (.msg "not implemented yet"))

/-- Outcome of inflate: either a normal return carrying the bytes
written to the buffer and the named error value, or an abort of the
whole run by a nil-interface dereference. -/
inductive InflateResult where
  | done : List Nat → Option GoErr → InflateResult
  | nilDeref : InflateResult
deriving DecidableEq, Repr

/-- seekable2.inflate: open a zlib decompressor on the stream. A
NewReader failure other than zlib.ErrHeader returns a wrapped fatal
error before any copy (and before the deferred Close is installed). A
zlib.ErrHeader failure is swallowed, but zlib.NewReader returns a nil
reader together with any error, so the copy the function then proceeds
to is a Read call on a nil interface: the run aborts with a runtime
panic (and the deferred Close on the same nil reader would panic too).
On a clean open, the result carries the copied bytes and the named
error return, into which the deferred Close writes only when the copy
left a nil error. -/
def inflate (z : ZBehavior) : InflateResult :=
  match z.openErr with
  | some e =>
    if e ≠ GoErr.zlibErrHeader then
      .done [] (some (GoErr.msg ("zlib reading error: " ++ e.message)))
    else
      .nilDeref
  | none =>
    .done z.copied (match z.copyErr with | some ce => some ce | none => z.closeErr)

/-- seekable2.readZip: inflate into a fresh buffer and return its bytes
together with the error; an abort inside inflate propagates. -/
def readZip (z : ZBehavior) : InflateResult := inflate z

/-- Outcome of readObject: a returned object, a returned error, or the
propagated abort from the decompression stage. -/
inductive ReadResult where
  | ok : Object → ReadResult
  | err : GoErr → ReadResult
  | nilDeref : ReadResult
deriving DecidableEq, Repr

/-- seekable2.readObject: decompress the stream and wrap the bytes as an
object hard-coded with the commit type tag and the byte count as its
declared size; an abort in readZip propagates. -/
def readObject (z : ZBehavior) : ReadResult :=
  match readZip z with
  | .nilDeref => .nilDeref
  | .done cont err =>
    match err with
    | some e => .err e
    | none => .ok (memory.NewObject ObjectType.commit (Int.ofNat cont.length) cont)

/-- Outcome of ObjectStorage.Get: a returned object, a returned error,
an explicit panic with an error value, or a runtime abort propagated
from the decompression stage. Each error branch of the Go body executes
panic with the error before its return statement, so the return
statements behind the panics are dead code and the err constructor is
never produced. -/
inductive GetOutcome where
  | ok : Object → GetOutcome
  | err : GoErr → GetOutcome
  | panicked : GoErr → GetOutcome
  | crashed : GetOutcome
deriving DecidableEq, Repr

/-- ObjectStorage.Get: locate the loose-object file, open it and read it
through the decompressor. Every failing step panics with its error, and
a nil-reader abort inside the decompression stage propagates. On the
success path the deferred Close writes its error into a local variable
after the result values are already fixed (Get has unnamed results), so
a Close failure is not observable. -/
def ObjectStorage.Get (s : ObjectStorage) (h : Hash) : GetOutcome :=
  match s.dir.Objectfile h with
  | .error e => .panicked e
  | .ok (fs, path) =>
    match fs.openErr path with
    | some e => .panicked e
    | none =>
      match readObject (fs.zlib path) with
      | .nilDeref => .crashed
      | .err e => .panicked e
      | .ok commit => .ok commit

/-- The object iterator as core.NewObjectSliceIter produces it: a finite
sequence of objects. -/
structure ObjectIter where
  objects : List Object
deriving DecidableEq, Repr

/-- Modelled from the spec: core.NewObjectSliceIter over a slice. -/
def NewObjectSliceIter (objects : List Object) : ObjectIter := ⟨objects⟩

/-- ObjectStorage.Iter: the index walk is commented out in the Go body,
so the objects slice stays nil and the iterator is empty, with a nil
error, for every type filter. -/
def ObjectStorage.Iter (_ : ObjectStorage) (_ : ObjectType) : ObjectIter × Option GoErr :=
  (NewObjectSliceIter [], none)

/-- The headErrPrefix constant of the Go source. -/
def headErrPrefixStr : String := "cannot get HEAD reference:"

/-- The symrefCapapability constant of the Go source (spelling kept). -/
def symrefCapapability : String := "symref"

/-- The headRefPrefix constant of the Go source. -/
def headRefPrefixStr : String := "HEAD:"

/-- The scan of the symref capability values in Head: every value
carrying the HEAD: marker overwrites the accumulator with its stripped
remainder, so the last carrying value wins and the scan does not stop at
the first match. -/
def headScanStep (headRef ref : String) : String :=
  if strStartsWith ref headRefPrefixStr then trimPref ref headRefPrefixStr else headRef

/-- The loop of Head over the symref capability values, folding the scan
step from the empty string. -/
def lastHeadRef (values : List String) : String := values.foldl headScanStep ""

/-- Tail of Head after the target reference name is fixed: fetch the
full reference mapping, wrap a scan error, and look the name up, failing
with a reference-not-found error naming it when absent. -/
def ObjectStorage.refsLookupStage (d : GitDir) (headRef : String) : Hash × Option GoErr :=
  match d.Refs with
  | (_, some e) => (zeroHash, some (.msg (headErrPrefixStr ++ " " ++ e.message)))
  | (refs, none) =>
    match List.lookup headRef refs with
    | some head => (head, none)
    | none =>
      (zeroHash,
        some (.msg (headErrPrefixStr ++ " reference \"" ++ headRef ++ "\" not found")))

/-- Steps two to six of Head, over an already fetched capability set:
require the symref capability, scan its values for the target reference
name, fail when the scan leaves the empty string, otherwise resolve
through the reference mapping. -/
def ObjectStorage.headResolve (cap : CapSet) (d : GitDir) : Hash × Option GoErr :=
  if capSupports cap symrefCapapability then
    let headRef := lastHeadRef (capGet cap symrefCapapability)
    if headRef = "" then
      (zeroHash, some (.msg (headErrPrefixStr ++ " HEAD reference not found")))
    else
      ObjectStorage.refsLookupStage d headRef
  else
    (zeroHash, some (.msg (headErrPrefixStr ++ " symref capability not supported")))

/-- ObjectStorage.Head: fetch the capabilities, wrap a scan error, and
resolve HEAD through the symref capability and the reference mapping. -/
def ObjectStorage.Head (s : ObjectStorage) : Hash × Option GoErr :=
  match s.dir.Capabilities with
  | (_, some e) => (zeroHash, some (.msg (headErrPrefixStr ++ " " ++ e.message)))
  | (cap, none) => ObjectStorage.headResolve cap s.dir

/-! ## Verification lemmas -/

theorem hexVal_hexChar : ∀ n < 16, hexVal (hexChar n) = some n := by decide

theorem hexChar_lt_cases : ∀ n < 16, isWS (hexChar n) = false ∧ hexChar n ≠ 'r' := by decide

theorem flatten_byteHex_length (l : List Nat) :
    ((l.map byteHex).flatten).length = 2 * l.length := by
  induction l with
  | nil => simp
  | cons b bs ih => simp [byteHex, ih]; ring

theorem Hash.str_data (h : Hash) : h.str.data = (h.bytes.map byteHex).flatten := rfl

theorem Hash.str_data_length (h : Hash) (hwf : h.WF) : h.str.data.length = 40 := by
  rw [Hash.str_data, flatten_byteHex_length, hwf.1]

theorem parseHashData_roundtrip (l : List Nat) (hl : ∀ b ∈ l, b < 256) :
    parseHashData ((l.map byteHex).flatten) = some l := by
  induction l with
  | nil => simp [parseHashData]
  | cons b bs ih =>
    have hb : b < 256 := hl b (by simp)
    have hdiv : b / 16 < 16 := by omega
    have hmod : b % 16 < 16 := Nat.mod_lt _ (by norm_num)
    simp only [List.map_cons, List.flatten_cons, byteHex, List.cons_append,
      List.nil_append, List.append_eq, parseHashData]
    rw [hexVal_hexChar _ hdiv, hexVal_hexChar _ hmod,
      ih (fun x hx => hl x (List.mem_cons_of_mem _ hx))]
    have hbe : b / 16 * 16 + b % 16 = b := by omega
    simp [hbe]

theorem parseHash_str (h : Hash) (hwf : h.WF) : parseHash h.str = some h := by
  unfold parseHash
  rw [Hash.str_data, parseHashData_roundtrip h.bytes hwf.2]
  simp [hwf.1]

theorem mem_hexStr (h : Hash) (hwf : h.WF) :
    ∀ c ∈ h.str.data, ∃ n, n < 16 ∧ c = hexChar n := by
  intro c hc
  rw [Hash.str_data] at hc
  rcases List.mem_flatten.1 hc with ⟨l, hl, hcl⟩
  rcases List.mem_map.1 hl with ⟨b, hb, rfl⟩
  have hb256 : b < 256 := hwf.2 b hb
  simp only [byteHex, List.mem_cons, List.not_mem_nil, or_false] at hcl
  rcases hcl with rfl | rfl
  · exact ⟨b / 16, by omega, rfl⟩
  · exact ⟨b % 16, Nat.mod_lt _ (by norm_num), rfl⟩

theorem dropWhile_of_forall_false {p : Char → Bool} (l : List Char)
    (h : ∀ c ∈ l, p c = false) : l.dropWhile p = l := by
  cases l with
  | nil => rfl
  | cons a l => simp [List.dropWhile_cons, h a (by simp)]

theorem trimSpace_hashStr (h : Hash) (hwf : h.WF) : trimSpace h.str = h.str := by
  have hws : ∀ c ∈ h.str.data, isWS c = false := by
    intro c hc
    rcases mem_hexStr h hwf c hc with ⟨n, hn, rfl⟩
    exact (hexChar_lt_cases n hn).1
  apply String.ext
  show ((h.str.data.dropWhile isWS).reverse.dropWhile isWS).reverse = h.str.data
  rw [dropWhile_of_forall_false _ hws,
    dropWhile_of_forall_false _ (fun c hc => hws c (List.mem_reverse.1 hc)),
    List.reverse_reverse]

theorem hashStr_not_symref (h : Hash) (hwf : h.WF) :
    strStartsWith h.str symRefPrefixStr = false := by
  obtain ⟨b, bs, hbb⟩ : ∃ b bs, h.bytes = b :: bs := by
    cases hb : h.bytes with
    | nil => exact absurd hwf.1 (by simp [hb])
    | cons b bs => exact ⟨b, bs, rfl⟩
  have hd : h.str.data = hexChar (b / 16) :: hexChar (b % 16) :: (bs.map byteHex).flatten := by
    rw [Hash.str_data, hbb]; rfl
  have hne : ('r' == hexChar (b / 16)) = false := by
    have hb256 : b < 256 := hwf.2 b (by rw [hbb]; simp)
    have := (hexChar_lt_cases (b / 16) (by omega)).2
    exact beq_eq_false_iff_ne.2 (fun he => this he.symm)
  show ("ref: ".data).isPrefixOf h.str.data = false
  rw [hd]
  show (('r' :: "ef: ".data)).isPrefixOf _ = false
  simp [List.isPrefixOf, hne]

theorem resolveRefContent_hashStr (all : List (String × String)) (h : Hash) (hwf : h.WF)
    (fuel : Nat) : resolveRefContent all (fuel + 1) h.str = some h := by
  simp [resolveRefContent, hashStr_not_symref h hwf, parseHash_str h hwf]

theorem buildRefs_lookup (all : List (String × String)) (k v : String) :
    ∀ (rest : List (String × String)) (m : List (String × Hash)),
      buildRefs all rest = some m → List.lookup k rest = some v →
      List.lookup k m = resolveRefContent all (all.length + 1) (trimSpace v) := by
  intro rest
  induction rest with
  | nil => intro m hb hl; simp [List.lookup] at hl
  | cons e rest ih =>
    intro m hb hl
    obtain ⟨n, c⟩ := e
    rw [buildRefs] at hb
    cases hr : resolveRefContent all (all.length + 1) (trimSpace c) with
    | none => rw [hr] at hb; simp at hb
    | some hh =>
      rw [hr] at hb
      cases hbs : buildRefs all rest with
      | none => rw [hbs] at hb; simp at hb
      | some m' =>
        rw [hbs] at hb
        simp only at hb
        cases hk : (k == n) with
        | true =>
          have hv : c = v := by
            rw [List.lookup_cons, hk] at hl; simpa using hl
          subst hv
          obtain rfl := Option.some.inj hb
          simp only [List.lookup_cons, hk, hr]
        | false =>
          have hl' : List.lookup k rest = some v := by
            rw [List.lookup_cons, hk] at hl; simpa using hl
          obtain rfl := Option.some.inj hb
          simp only [List.lookup_cons, hk]
          exact ih m' hbs hl'

/-- C1: for every repository state whose HEAD file reads cleanly with
content ref: refs/heads/main and whose reference file refs/heads/main
contains the hexadecimal rendering of a wellformed hash H (with the
reference scan succeeding as a whole), Head returns H with a nil error,
composing the symref capability entry with the Refs mapping through the
two-stage indirection HEAD to named ref to hash. -/
theorem head_c1 (st : FSState) (root : String) (H : Hash) (hwf : H.WF)
    (hopen : st.openErr (fsJoin [root, "HEAD"]) = none)
    (hread : st.readAll (fsJoin [root, "HEAD"]) = .ok "ref: refs/heads/main")
    (hclose : st.closeErr (fsJoin [root, "HEAD"]) = none)
    (hfile : List.lookup "refs/heads/main" st.refFiles = some H.str)
    (hscan : (GitDir.Refs ⟨st, root⟩).2 = none) :
    ObjectStorage.Head ⟨⟨st, root⟩⟩ = (H, none) := by
  have htrim : trimSpace "ref: refs/heads/main" = "ref: refs/heads/main" := by decide
  have hpref : trimPref "ref: refs/heads/main" symRefPrefixStr = "refs/heads/main" := by decide
  cases hr : GitDir.addRefsFromRefDir ⟨st, root⟩ with
  | none => simp [GitDir.Refs, hr] at hscan
  | some m =>
    have hRefs : GitDir.Refs ⟨st, root⟩ = (m, none) := by simp [GitDir.Refs, hr]
    have hb : buildRefs st.refFiles st.refFiles = some m := hr
    have hlook : List.lookup "refs/heads/main" m = some H := by
      have hx := buildRefs_lookup st.refFiles "refs/heads/main" H.str st.refFiles m hb hfile
      rw [trimSpace_hashStr H hwf] at hx
      rw [hx, resolveRefContent_hashStr st.refFiles H hwf st.refFiles.length]
    have hcap : GitDir.Capabilities ⟨st, root⟩ =
        ([("symref", "HEAD:refs/heads/main" :: [])], none) := by
      simp only [GitDir.Capabilities, GitDir.addSymRefCapability, hopen, hread, hclose,
        htrim, hpref]
      rfl
    have hlast : lastHeadRef ["HEAD:refs/heads/main"] = "refs/heads/main" := by decide
    have hsup : capSupports [("symref", ["HEAD:refs/heads/main"])] symrefCapapability = true := by
      decide
    have hcg : capGet [("symref", ["HEAD:refs/heads/main"])] symrefCapapability =
        ["HEAD:refs/heads/main"] := by decide
    simp only [ObjectStorage.Head, hcap, ObjectStorage.headResolve, hsup, if_true, hcg, hlast]
    rw [if_neg (by decide)]
    simp only [ObjectStorage.refsLookupStage, hRefs, hlook]

theorem objectfile_path_eq (root : String) (h : Hash) (hwf : h.WF) :
    fsJoin [root, "objects", goSlice h.str 0 2, goSlice h.str 2 40] =
      root ++ "/objects/" ++ String.mk (h.str.data.take 2) ++ "/" ++
        String.mk (h.str.data.drop 2) := by
  have h40 : h.str.data.length = 40 := Hash.str_data_length h hwf
  have hsl : goSlice h.str 2 40 = String.mk (h.str.data.drop 2) := by
    unfold goSlice
    congr 1
    apply List.take_of_length_le
    simp [h40]
  apply String.ext
  rw [hsl]
  simp only [fsJoin, String.data_append, goSlice, List.drop_zero]
  simp [List.append_assoc]

/-- C4: for every wellformed forty-hexadecimal-character hash, Objectfile
builds exactly the path root/objects/H[0:2]/H[2:40], succeeds exactly
when the stat of that path succeeds, returns ErrNotFound when the stat
reports does-not-exist, and surfaces any other stat failure unchanged. -/
theorem objectfile_c4 (st : FSState) (root : String) (h : Hash) (hwf : h.WF) :
    (st.stat (root ++ "/objects/" ++ String.mk (h.str.data.take 2) ++ "/" ++
        String.mk (h.str.data.drop 2)) = none →
      GitDir.Objectfile ⟨st, root⟩ h =
        .ok (st, root ++ "/objects/" ++ String.mk (h.str.data.take 2) ++ "/" ++
          String.mk (h.str.data.drop 2))) ∧
    (∀ e, st.stat (root ++ "/objects/" ++ String.mk (h.str.data.take 2) ++ "/" ++
        String.mk (h.str.data.drop 2)) = some e → e.isNotExist = true →
      GitDir.Objectfile ⟨st, root⟩ h = .error .errNotFound) ∧
    (∀ e, st.stat (root ++ "/objects/" ++ String.mk (h.str.data.take 2) ++ "/" ++
        String.mk (h.str.data.drop 2)) = some e → e.isNotExist = false →
      GitDir.Objectfile ⟨st, root⟩ h = .error e) := by
  have hp := objectfile_path_eq root h hwf
  refine ⟨fun hst => ?_, fun e hst hne => ?_, fun e hst hne => ?_⟩
  · simp [GitDir.Objectfile, hp, hst]
  · simp [GitDir.Objectfile, hp, hst, hne]
  · simp [GitDir.Objectfile, hp, hst, hne]

theorem readObject_ok (z : ZBehavior) (o : Object) (h : readObject z = .ok o) :
    ∃ cont : List Nat, o = ⟨ObjectType.commit, Int.ofNat cont.length, cont⟩ := by
  unfold readObject at h
  cases hz : readZip z with
  | nilDeref => rw [hz] at h; simp at h
  | done cont err =>
    rw [hz] at h
    cases err with
    | some e => simp at h
    | none =>
      refine ⟨cont, ?_⟩
      simpa [memory.NewObject] using h.symm

theorem get_ok_anatomy (s : ObjectStorage) (h : Hash) (o : Object)
    (hget : ObjectStorage.Get s h = .ok o) :
    ∃ cont : List Nat, o = ⟨ObjectType.commit, Int.ofNat cont.length, cont⟩ := by
  unfold ObjectStorage.Get at hget
  cases hof : s.dir.Objectfile h with
  | error e => rw [hof] at hget; simp at hget
  | ok fp =>
    rw [hof] at hget
    cases ho : fp.1.openErr fp.2 with
    | some e => simp only [ho] at hget; simp at hget
    | none =>
      simp only [ho] at hget
      cases hro : readObject (fp.1.zlib fp.2) with
      | nilDeref => rw [hro] at hget; simp at hget
      | err e => rw [hro] at hget; simp at hget
      | ok c =>
        rw [hro] at hget
        simp only [GetOutcome.ok.injEq] at hget
        subst hget
        exact readObject_ok _ _ hro

/-- C6: every object successfully returned by Get declares a size equal
to the length of its content bytes after decompression. -/
theorem get_size_c6 (s : ObjectStorage) (h : Hash) (o : Object)
    (hget : ObjectStorage.Get s h = .ok o) :
    o.size = Int.ofNat o.content.length := by
  obtain ⟨cont, rfl⟩ := get_ok_anatomy s h o hget
  rfl

/-- C7: every object successfully returned by Get carries the constant
commit type tag, regardless of the decompressed content. -/
theorem get_type_c7 (s : ObjectStorage) (h : Hash) (o : Object)
    (hget : ObjectStorage.Get s h = .ok o) :
    o.type = ObjectType.commit := by
  obtain ⟨cont, rfl⟩ := get_ok_anatomy s h o hget
  rfl

/-- C8: for every input object, Set returns the all-zero hash together
with the fixed not-implemented error and leaves the storage unchanged. -/
theorem set_c8 (s : ObjectStorage) (o : Object) :
    ObjectStorage.Set s o = (s, zeroHash, some (GoErr.msg "not implemented yet")) ∧
      zeroHash.bytes = List.replicate 20 0 :=
  ⟨rfl, rfl⟩

/-- C9: for every type filter, Iter returns an iterator with zero
elements and a nil error; it never fails. -/
theorem iter_c9 (s : ObjectStorage) (t : ObjectType) :
    ObjectStorage.Iter s t = (NewObjectSliceIter [], none) ∧
      (ObjectStorage.Iter s t).1.objects.length = 0 :=
  ⟨rfl, rfl⟩

/-- C2 (evidence of the code bug): when the stat of the shard path of a
hash reports a does-not-exist error, Get does not return the NotFound
error; it aborts by executing panic with ErrNotFound, the return
statement behind the panic being dead code. -/
theorem get_notfound_panics_c2 (st : FSState) (root : String) (h : Hash) (e : GoErr)
    (hstat : st.stat (fsJoin [root, "objects", goSlice h.str 0 2, goSlice h.str 2 40]) = some e)
    (hne : e.isNotExist = true) :
    ObjectStorage.Get ⟨⟨st, root⟩⟩ h = .panicked .errNotFound := by
  simp [ObjectStorage.Get, GitDir.Objectfile, hstat, hne]

/-- C3 (evidence of the code bug): the inflate error policy as the code
actually runs. A decompressor-open failure other than the header
mismatch is returned as a wrapped fatal error with no copy, and on a
clean open the close error is surfaced only when the copy left no
error, never replacing a prior non-nil error; but when the open fails
with exactly the header-mismatch error, the swallowed error leaves a
nil reader behind and the function aborts with a runtime panic instead
of proceeding to copy the stream as the claim states. -/
theorem inflate_crash_c3 (z : ZBehavior) :
    (z.openErr = some GoErr.zlibErrHeader → inflate z = InflateResult.nilDeref) ∧
    (∀ e, z.openErr = some e → e ≠ GoErr.zlibErrHeader →
      inflate z = .done [] (some (GoErr.msg ("zlib reading error: " ++ e.message)))) ∧
    (z.openErr = none →
      (z.copyErr = none → inflate z = .done z.copied z.closeErr) ∧
      (∀ e, z.copyErr = some e → inflate z = .done z.copied (some e))) := by
  refine ⟨fun hop => ?_, fun e hop hne => ?_, fun hop => ⟨fun hc => ?_, fun e hc => ?_⟩⟩
  · simp [inflate, hop]
  · simp [inflate, hop, hne]
  · simp [inflate, hop, hc]
  · simp [inflate, hop, hc]

theorem capabilities_ok_supports (d : GitDir) (cap : CapSet)
    (hcap : d.Capabilities = (cap, none)) :
    capSupports cap symrefCapapability = true := by
  simp only [GitDir.Capabilities, GitDir.addSymRefCapability] at hcap
  cases ho : d.fs.openErr (fsJoin [d.path, "HEAD"]) with
  | some e => rw [ho] at hcap; simp at hcap
  | none =>
    rw [ho] at hcap
    cases hrd : d.fs.readAll (fsJoin [d.path, "HEAD"]) with
    | error e => rw [hrd] at hcap; simp at hcap
    | ok b =>
      rw [hrd] at hcap
      simp only [Prod.mk.injEq] at hcap
      rw [← hcap.1]
      simp [capSupports, capSet, NewCapabilities, List.lookup_cons, symrefCapapability]

/-- C5: for every repository whose HEAD resolves to a target reference
name that is absent from the mapping returned by Refs, Head fails with
an error whose message says the reference was not found and includes
that reference name. -/
theorem head_missing_ref_c5 (st : FSState) (root : String) (r : String) (cap : CapSet)
    (hcap : GitDir.Capabilities ⟨st, root⟩ = (cap, none))
    (hlast : lastHeadRef (capGet cap symrefCapapability) = r)
    (hne : r ≠ "")
    (hscan : (GitDir.Refs ⟨st, root⟩).2 = none)
    (hmiss : List.lookup r (GitDir.Refs ⟨st, root⟩).1 = none) :
    ObjectStorage.Head ⟨⟨st, root⟩⟩ =
      (zeroHash,
        some (GoErr.msg (headErrPrefixStr ++ " reference \"" ++ r ++ "\" not found"))) := by
  have hsup := capabilities_ok_supports _ cap hcap
  simp only [ObjectStorage.Head, hcap, ObjectStorage.headResolve, hsup, if_true, hlast]
  rw [if_neg hne]
  unfold ObjectStorage.refsLookupStage
  cases hR : GitDir.Refs ⟨st, root⟩ with
  | mk m e =>
    rw [hR] at hscan hmiss
    simp only at hscan hmiss
    subst hscan
    simp only [hmiss]

theorem foldl_headScanStep_no_match (l : List String) (a : String)
    (h : ∀ w ∈ l, strStartsWith w headRefPrefixStr = false) :
    l.foldl headScanStep a = a := by
  induction l generalizing a with
  | nil => rfl
  | cons x l ih =>
    simp only [List.foldl_cons]
    rw [show headScanStep a x = a from by simp [headScanStep, h x (by simp)]]
    exact ih a (fun w hw => h w (by simp [hw]))

theorem lastHeadRef_decomp (l₁ : List String) (v : String) (l₂ : List String)
    (hv : strStartsWith v headRefPrefixStr = true)
    (hl₂ : ∀ w ∈ l₂, strStartsWith w headRefPrefixStr = false) :
    lastHeadRef (l₁ ++ v :: l₂) = trimPref v headRefPrefixStr := by
  unfold lastHeadRef
  rw [List.foldl_append, List.foldl_cons]
  rw [show headScanStep (List.foldl headScanStep "" l₁) v = trimPref v headRefPrefixStr from by
    simp [headScanStep, hv]]
  exact foldl_headScanStep_no_match l₂ _ hl₂

theorem snocInj {α : Type} {l₁ l₂ : List α} {x y : α} (h : l₁ ++ [x] = l₂ ++ [y]) :
    l₁ = l₂ ∧ x = y := by
  have h2 := congrArg List.reverse h
  simp only [List.reverse_append, List.reverse_cons, List.reverse_nil, List.nil_append,
    List.cons_append] at h2
  injection h2 with hxy hrev
  exact ⟨List.reverse_inj.1 hrev, hxy⟩

theorem lastHeadRef_empty_iff (vals : List String) :
    lastHeadRef vals = "" ↔
      (∀ w ∈ vals, strStartsWith w headRefPrefixStr = false) ∨
      (∃ l₁ v l₂, vals = l₁ ++ v :: l₂ ∧ strStartsWith v headRefPrefixStr = true ∧
        (∀ w ∈ l₂, strStartsWith w headRefPrefixStr = false) ∧
        trimPref v headRefPrefixStr = "") := by
  induction vals using List.reverseRecOn with
  | nil => simp [lastHeadRef]
  | append_singleton l x ih =>
    by_cases hx : strStartsWith x headRefPrefixStr = true
    · have hl : lastHeadRef (l ++ [x]) = trimPref x headRefPrefixStr :=
        lastHeadRef_decomp l x [] hx (by simp)
      rw [hl]
      constructor
      · intro he
        exact Or.inr ⟨l, x, [], rfl, hx, by simp, he⟩
      · rintro (hall | ⟨l₁, v, l₂, hdec, hv, hl₂, hstrip⟩)
        · exact absurd (hall x (by simp)) (by simp [hx])
        · rcases List.eq_nil_or_concat l₂ with rfl | ⟨l₂', y, rfl⟩
          · obtain ⟨-, rfl⟩ := snocInj hdec
            exact hstrip
          · have hdec2 : l ++ [x] = (l₁ ++ v :: l₂') ++ [y] := by
              simpa [List.concat_eq_append, List.append_assoc] using hdec
            obtain ⟨-, rfl⟩ := snocInj hdec2
            exact absurd (hl₂ x (by simp [List.concat_eq_append])) (by simp [hx])
    · have hxf : strStartsWith x headRefPrefixStr = false := by
        simpa using hx
      have hstep : lastHeadRef (l ++ [x]) = lastHeadRef l := by
        unfold lastHeadRef
        rw [List.foldl_append]
        simp [headScanStep, hxf]
      rw [hstep, ih]
      constructor
      · rintro (hall | ⟨l₁, v, l₂, rfl, hv, hl₂, hstrip⟩)
        · refine Or.inl fun w hw => ?_
          rcases List.mem_append.1 hw with hw | hw
          · exact hall w hw
          · rw [List.mem_singleton.1 hw]; exact hxf
        · refine Or.inr ⟨l₁, v, l₂ ++ [x], by simp [List.append_assoc], hv, ?_, hstrip⟩
          intro w hw
          rcases List.mem_append.1 hw with hw | hw
          · exact hl₂ w hw
          · rw [List.mem_singleton.1 hw]; exact hxf
      · rintro (hall | ⟨l₁, v, l₂, hdec, hv, hl₂, hstrip⟩)
        · exact Or.inl fun w hw => hall w (by simp [hw])
        · rcases List.eq_nil_or_concat l₂ with rfl | ⟨l₂', y, rfl⟩
          · obtain ⟨-, rfl⟩ := snocInj hdec
            exact absurd hv (by simp [hxf])
          · have hdec2 : l ++ [x] = (l₁ ++ v :: l₂') ++ [y] := by
              simpa [List.concat_eq_append, List.append_assoc] using hdec
            obtain ⟨hl', rfl⟩ := snocInj hdec2
            exact Or.inr ⟨l₁, v, l₂', hl', hv,
              fun w hw => hl₂ w (by simp [List.concat_eq_append, hw]), hstrip⟩

theorem ref_msg_ne (r : String) :
    headErrPrefixStr ++ " reference \"" ++ r ++ "\" not found" ≠
      headErrPrefixStr ++ " HEAD reference not found" := by
  intro h
  have hd := congrArg String.data h
  simp only [String.data_append, List.append_assoc] at hd
  have h2 := List.append_cancel_left hd
  have h3 : (' ' :: 'r' :: ("eference \"".data ++ (r.data ++ "\" not found".data)))
      = (' ' :: 'H' :: "EAD reference not found".data) := h2
  injection h3 with h4 h5
  injection h5 with h6 h7
  exact absurd h6 (by decide)

theorem refs_err_shape (d : GitDir) :
    (d.Refs).2 = none ∨ (d.Refs).2 = some (GoErr.msg "could not resolve references") := by
  unfold GitDir.Refs
  cases d.addRefsFromRefDir <;> simp

theorem refsLookupStage_ne (d : GitDir) (r : String) :
    ObjectStorage.refsLookupStage d r ≠
      (zeroHash, some (GoErr.msg (headErrPrefixStr ++ " HEAD reference not found"))) := by
  cases hR : d.Refs with
  | mk m e =>
    have hsh := refs_err_shape d
    rw [hR] at hsh
    simp only at hsh
    cases e with
    | some err =>
      have herr : err = GoErr.msg "could not resolve references" := by
        rcases hsh with h | h
        · simp at h
        · simpa using h
      subst herr
      simp only [ObjectStorage.refsLookupStage, hR]
      intro hcontra
      simp only [Prod.mk.injEq, Option.some.injEq, GoErr.msg.injEq] at hcontra
      exact absurd hcontra.2 (by decide)
    | none =>
      simp only [ObjectStorage.refsLookupStage, hR]
      cases hlk : List.lookup r m with
      | some hh => simp only [hlk]; simp
      | none =>
        simp only [hlk]
        intro hcontra
        simp only [Prod.mk.injEq, Option.some.injEq, GoErr.msg.injEq] at hcontra
        exact ref_msg_ne r hcontra.2

/-- C10: when the symref capability is supported, the scan over its
values keeps the last value carrying the HEAD: marker (the scan does not
stop at the first match), Head proceeds to the reference lookup with
that stripped value when it is nonempty, and Head fails with the HEAD
reference not found error exactly when no value carries the marker or
the last carrying value strips to the empty string. -/
theorem head_scan_c10 (cap : CapSet) (d : GitDir)
    (hsup : capSupports cap symrefCapapability = true) :
    (∀ l₁ v l₂, capGet cap symrefCapapability = l₁ ++ v :: l₂ →
        strStartsWith v headRefPrefixStr = true →
        (∀ w ∈ l₂, strStartsWith w headRefPrefixStr = false) →
        lastHeadRef (capGet cap symrefCapapability) = trimPref v headRefPrefixStr ∧
        (trimPref v headRefPrefixStr ≠ "" →
          ObjectStorage.headResolve cap d =
            ObjectStorage.refsLookupStage d (trimPref v headRefPrefixStr))) ∧
    (ObjectStorage.headResolve cap d =
        (zeroHash, some (GoErr.msg (headErrPrefixStr ++ " HEAD reference not found"))) ↔
      ((∀ w ∈ capGet cap symrefCapapability, strStartsWith w headRefPrefixStr = false) ∨
        (∃ l₁ v l₂, capGet cap symrefCapapability = l₁ ++ v :: l₂ ∧
          strStartsWith v headRefPrefixStr = true ∧
          (∀ w ∈ l₂, strStartsWith w headRefPrefixStr = false) ∧
          trimPref v headRefPrefixStr = ""))) := by
  constructor
  · intro l₁ v l₂ hdec hv hl₂
    have hlast : lastHeadRef (capGet cap symrefCapapability) = trimPref v headRefPrefixStr := by
      rw [hdec]; exact lastHeadRef_decomp l₁ v l₂ hv hl₂
    refine ⟨hlast, fun hne => ?_⟩
    simp only [ObjectStorage.headResolve, hsup, if_true, hlast]
    rw [if_neg hne]
  · rw [← lastHeadRef_empty_iff]
    constructor
    · intro he
      by_cases hc : lastHeadRef (capGet cap symrefCapapability) = ""
      · exact hc
      · simp only [ObjectStorage.headResolve, hsup, if_true] at he
        rw [if_neg hc] at he
        exact absurd he (refsLookupStage_ne d _)
    · intro hc
      simp only [ObjectStorage.headResolve, hsup, if_true, hc]

def wHash : Hash := ⟨List.replicate 20 170⟩

def wRepoFS : FSState where
  stat := fun _ => none
  openErr := fun _ => none
  readAll := fun p =>
    if p = "r/HEAD" then Except.ok "ref: refs/heads/main" else Except.error (GoErr.msg "unreadable")
  closeErr := fun _ => none
  zlib := fun _ => ⟨none, [104, 101, 108, 108, 111], none, none⟩
  refFiles := [("refs/heads/main", wHash.str)]

def wMissFS : FSState where
  stat := fun _ => none
  openErr := fun _ => none
  readAll := fun p =>
    if p = "r/HEAD" then Except.ok "ref: refs/heads/dev" else Except.error (GoErr.msg "unreadable")
  closeErr := fun _ => none
  zlib := fun _ => ⟨none, [], none, none⟩
  refFiles := []

def wAbsentFS : FSState where
  stat := fun _ => some (GoErr.sys true "no such file or directory")
  openErr := fun _ => none
  readAll := fun _ => Except.error (GoErr.msg "unreadable")
  closeErr := fun _ => none
  zlib := fun _ => ⟨none, [], none, none⟩
  refFiles := []

def wZ : ZBehavior := ⟨some GoErr.zlibErrHeader, [7, 8], none, some (GoErr.msg "checksum mismatch")⟩

def wCap : CapSet := [("symref", ["HEAD:refs/heads/a", "noise", "HEAD:refs/heads/b"])]

theorem head_c1_witness : ObjectStorage.Head ⟨⟨wRepoFS, "r"⟩⟩ = (wHash, none) :=
  head_c1 wRepoFS "r" wHash (by decide) rfl rfl rfl rfl rfl

theorem head_missing_ref_c5_witness :
    ObjectStorage.Head ⟨⟨wMissFS, "r"⟩⟩ =
      (zeroHash,
        some (GoErr.msg
          (headErrPrefixStr ++ " reference \"" ++ "refs/heads/dev" ++ "\" not found"))) :=
  head_missing_ref_c5 wMissFS "r" "refs/heads/dev" [("symref", ["HEAD:refs/heads/dev"])]
    (by decide) (by decide) (by decide) rfl rfl

theorem objectfile_c4_witness :
    GitDir.Objectfile ⟨wRepoFS, "r"⟩ wHash =
      Except.ok (wRepoFS,
        "r" ++ "/objects/" ++ String.mk (wHash.str.data.take 2) ++ "/" ++
          String.mk (wHash.str.data.drop 2)) :=
  (objectfile_c4 wRepoFS "r" wHash (by decide)).1 rfl

theorem get_notfound_panics_c2_witness :
    ObjectStorage.Get ⟨⟨wAbsentFS, "r"⟩⟩ wHash = GetOutcome.panicked GoErr.errNotFound :=
  get_notfound_panics_c2 wAbsentFS "r" wHash (GoErr.sys true "no such file or directory") rfl rfl

theorem get_size_c6_witness :
    ObjectStorage.Get ⟨⟨wRepoFS, "r"⟩⟩ wHash =
        GetOutcome.ok ⟨ObjectType.commit, 5, [104, 101, 108, 108, 111]⟩ ∧
      (⟨ObjectType.commit, 5, [104, 101, 108, 108, 111]⟩ : Object).size =
        Int.ofNat (⟨ObjectType.commit, 5, [104, 101, 108, 108, 111]⟩ : Object).content.length :=
  ⟨rfl, get_size_c6 ⟨⟨wRepoFS, "r"⟩⟩ wHash _ rfl⟩

theorem get_type_c7_witness :
    ObjectStorage.Get ⟨⟨wRepoFS, "r"⟩⟩ wHash =
        GetOutcome.ok ⟨ObjectType.commit, 5, [104, 101, 108, 108, 111]⟩ ∧
      (⟨ObjectType.commit, 5, [104, 101, 108, 108, 111]⟩ : Object).type = ObjectType.commit :=
  ⟨rfl, get_type_c7 ⟨⟨wRepoFS, "r"⟩⟩ wHash _ rfl⟩

theorem inflate_crash_c3_witness : inflate wZ = InflateResult.nilDeref :=
  (inflate_crash_c3 wZ).1 rfl

theorem head_scan_c10_witness :
    lastHeadRef (capGet wCap symrefCapapability) =
        trimPref "HEAD:refs/heads/b" headRefPrefixStr ∧
      ObjectStorage.headResolve wCap ⟨wMissFS, "r"⟩ =
        ObjectStorage.refsLookupStage ⟨wMissFS, "r"⟩
          (trimPref "HEAD:refs/heads/b" headRefPrefixStr) :=
  ⟨((head_scan_c10 wCap ⟨wMissFS, "r"⟩ (by decide)).1 ["HEAD:refs/heads/a", "noise"]
      "HEAD:refs/heads/b" [] rfl (by decide) (by decide)).1,
    ((head_scan_c10 wCap ⟨wMissFS, "r"⟩ (by decide)).1 ["HEAD:refs/heads/a", "noise"]
      "HEAD:refs/heads/b" [] rfl (by decide) (by decide)).2 (by decide)⟩
